import Mathlib

/-!
Verification of the blackwidow set engine (`src/redis_sets.cc`) and the
cross-type dispatcher (`src/blackwidow.cc`) against their specification.

The substrate (rocksdb) is modelled as an error-free store: the meta column
family is a function from user keys to optional meta values, and the member
column family is the list of its rows `(user_key, version, member)`.  Point
reads are lookups, batch writes are functional updates, and prefix iteration
is filtering the row list.  Record locks and snapshots serialise operations
in the source; a single operation on this pure store is their image.
-/

namespace Blackwidow

/-- Result statuses of the engine, mirroring `rocksdb::Status` as used by the
source: `OK`, `NotFound` (with optional reason), `Corruption`,
`InvalidArgument`. -/
inductive Status where
  | ok : Status
  | notFound (msg : String) : Status
  | corruption (msg : String) : Status
  | invalidArgument (msg : String) : Status
deriving DecidableEq, Repr

/-- `Status::ok()`. -/
def Status.isOk : Status → Bool
  | .ok => true
  | _ => false

/-- `Status::IsNotFound()`. -/
def Status.isNotFound : Status → Bool
  | .notFound _ => true
  | _ => false

/-- The `DataType` enum of the dispatcher. -/
inductive DataType where
  | kStrings | kHashes | kSets | kLists | kZSets | kAll
deriving DecidableEq, Repr

/-- The background-task operation enum (`kCleanAll`, `kCompactKey`). -/
inductive Operation where
  | kCleanAll | kCompactKey
deriving DecidableEq, Repr

/-- A background task (`struct BGTask` of `blackwidow.h`): a data type, an
operation, and a key argument. -/
structure BGTask where
  type : DataType
  operation : Operation
  argv : String
deriving DecidableEq, Repr

/-- A parsed sets meta value: `count` (stored as a 32-bit integer, modelled
as an unbounded `Int`; no claim exercises overflow), `version` and the
absolute expiry `timestamp` (`0` means no expiry). -/
structure SetsMeta where
  count : Int
  version : Nat
  timestamp : Int
deriving DecidableEq, Repr

/-- Modelled from the spec: `is_stale(meta, now) = timestamp ≠ 0 ∧
timestamp ≤ now` (the codec header defining `IsStale` is not under `src/`). -/
def isStale (m : SetsMeta) (now : Int) : Bool :=
  decide (m.timestamp ≠ 0 ∧ m.timestamp ≤ now)

/-- Modelled from the spec: `initial_meta_value()` increments `version` and
sets `count := 0`, `timestamp := 0` (the codec header is not under `src/`).
The bumped version is `m.version + 1`. -/
def initialMetaValue (m : SetsMeta) : SetsMeta :=
  ⟨0, m.version + 1, 0⟩

/-- Modelled from the spec: the fresh version stamped on a meta row created
for a previously unknown key (`SetsMetaValue::UpdateVersion`, not under
`src/`); the first incarnation is modelled as version `1`. -/
def freshVersion : Nat := 1

/-- The two column families of the sets engine: the meta CF as a point map
and the member CF as its list of rows `(user_key, version, member)` (row
values are empty for sets). -/
structure SetsStore where
  meta : String → Option SetsMeta
  data : List (String × Nat × String)

/-- Write a meta row (a `batch.Put` on `handles_[0]`). -/
def putMeta (st : SetsStore) (key : String) (m : SetsMeta) : SetsStore :=
  { st with meta := fun k => if k = key then some m else st.meta k }

/-- Point-read of a member row (`db_->Get` on `handles_[1]`): present iff the
row is in the member CF. -/
def dataContains (st : SetsStore) (key : String) (version : Nat)
    (member : String) : Bool :=
  decide ((key, version, member) ∈ st.data)

/-- Write member rows for each member of `mems` under `version`
(`batch.Put` on `handles_[1]`, one per member, in order). -/
def putDataList (st : SetsStore) (key : String) (version : Nat)
    (mems : List String) : SetsStore :=
  { st with data := st.data ++ mems.map (fun mem => (key, version, mem)) }

/-- Delete one member row (`batch.Delete` on `handles_[1]`). -/
def eraseData (st : SetsStore) (key : String) (version : Nat)
    (member : String) : SetsStore :=
  { st with data := st.data.erase (key, version, member) }

/-- Iteration of the member CF under the prefix
`user_key_len || user_key || version`: the members of the rows of `key`
carrying `version`, in row order. -/
def dataRowsOf (st : SetsStore) (key : String) (version : Nat) : List String :=
  (st.data.filter (fun e => e.1 = key ∧ e.2.1 = version)).map (fun e => e.2.2)

/-- A key whose meta row is absent, stale, or has count zero: its data rows
are logically absent. -/
def isDeadOrAbsent (st : SetsStore) (now : Int) (key : String) : Bool :=
  match st.meta key with
  | none => true
  | some m => isStale m now || decide (m.count = 0)

/-! ### Deduplication (`SAdd` prologue)

`SAdd` filters its members through an `unordered_set`, keeping the first
occurrence of each member in input order. -/

/-- The filtering loop of `SAdd`: `seen` is the `unique` set, and a member is
kept iff it has not been seen yet. -/
def filterDupAux {α : Type} [DecidableEq α] (seen : List α) :
    List α → List α
  | [] => []
  | m :: rest =>
    if m ∈ seen then filterDupAux seen rest
    else m :: filterDupAux (m :: seen) rest

/-- Deduplicate preserving first-seen order (the `filtered_members` of
`SAdd`). -/
def filterDup {α : Type} [DecidableEq α] (l : List α) : List α :=
  filterDupAux [] l

theorem mem_filterDupAux {α : Type} [DecidableEq α] (x : α) :
    ∀ (l seen : List α), x ∈ filterDupAux seen l ↔ x ∈ l ∧ x ∉ seen := by
  intro l
  induction l with
  | nil => intro seen; simp [filterDupAux]
  | cons m rest ih =>
    intro seen
    by_cases hm : m ∈ seen
    · simp only [filterDupAux, if_pos hm, ih, List.mem_cons]
      constructor
      · rintro ⟨hx, hs⟩; exact ⟨Or.inr hx, hs⟩
      · rintro ⟨rfl | hx, hs⟩
        · exact absurd hm hs
        · exact ⟨hx, hs⟩
    · simp only [filterDupAux, if_neg hm, List.mem_cons, ih]
      constructor
      · rintro (rfl | ⟨hx, hs⟩)
        · exact ⟨Or.inl rfl, hm⟩
        · exact ⟨Or.inr hx, fun h => hs (Or.inr h)⟩
      · rintro ⟨rfl | hx, hs⟩
        · exact Or.inl rfl
        · by_cases hxm : x = m
          · exact Or.inl hxm
          · exact Or.inr ⟨hx, fun h => h.elim hxm hs⟩

theorem mem_filterDup {α : Type} [DecidableEq α] (x : α) (l : List α) :
    x ∈ filterDup l ↔ x ∈ l := by
  simp [filterDup, mem_filterDupAux]

theorem nodup_filterDupAux {α : Type} [DecidableEq α] :
    ∀ (l seen : List α), (filterDupAux seen l).Nodup := by
  intro l
  induction l with
  | nil => intro seen; simp [filterDupAux]
  | cons m rest ih =>
    intro seen
    by_cases hm : m ∈ seen
    · simpa [filterDupAux, if_pos hm] using ih seen
    · simp only [filterDupAux, if_neg hm]
      refine List.nodup_cons.mpr ⟨?_, ih (m :: seen)⟩
      intro hmem
      exact ((mem_filterDupAux m rest (m :: seen)).mp hmem).2 (List.mem_cons_self m seen)

theorem nodup_filterDup {α : Type} [DecidableEq α] (l : List α) :
    (filterDup l).Nodup :=
  nodup_filterDupAux l []

theorem sublist_filterDupAux {α : Type} [DecidableEq α] :
    ∀ (l seen : List α), (filterDupAux seen l).Sublist l := by
  intro l
  induction l with
  | nil => intro seen; simp [filterDupAux]
  | cons m rest ih =>
    intro seen
    by_cases hm : m ∈ seen
    · simpa [filterDupAux, if_pos hm] using (ih seen).cons m
    · simpa [filterDupAux, if_neg hm] using (ih (m :: seen)).cons₂ m

theorem sublist_filterDup {α : Type} [DecidableEq α] (l : List α) :
    (filterDup l).Sublist l :=
  sublist_filterDupAux l []

/-- Two `seen` accumulators with the same membership produce the same
filtered list. -/
theorem filterDupAux_congr {α : Type} [DecidableEq α] :
    ∀ (l s t : List α), (∀ x, x ∈ s ↔ x ∈ t) →
      filterDupAux s l = filterDupAux t l := by
  intro l
  induction l with
  | nil => intro s t _; rfl
  | cons m rest ih =>
    intro s t hst
    by_cases hm : m ∈ s
    · rw [filterDupAux, filterDupAux, if_pos hm, if_pos ((hst m).mp hm)]
      exact ih s t hst
    · rw [filterDupAux, filterDupAux, if_neg hm,
        if_neg (fun h => hm ((hst m).mpr h))]
      refine congrArg (m :: ·) (ih _ _ ?_)
      intro x; simp [hst x]

/-- Adding `x` to the `seen` set is the same as filtering `x` out of the
result. -/
theorem filterDupAux_cons_seen {α : Type} [DecidableEq α] :
    ∀ (l s : List α) (x : α),
      filterDupAux (x :: s) l = (filterDupAux s l).filter (fun y => y ≠ x) := by
  intro l
  induction l with
  | nil => intro s x; rfl
  | cons m rest ih =>
    intro s x
    by_cases hmx : m = x
    · subst hmx
      by_cases hm : m ∈ s
      · rw [filterDupAux, if_pos (List.mem_cons_of_mem _ hm),
          filterDupAux, if_pos hm, ih]
      · rw [filterDupAux, if_pos (List.mem_cons_self m s),
          filterDupAux, if_neg hm, List.filter_cons, if_neg (by simp)]
        refine (List.filter_eq_self.mpr ?_).symm
        intro y hy
        have hmem := (mem_filterDupAux y rest (m :: s)).mp hy
        have hym : y ≠ m := fun h => hmem.2 (h ▸ List.mem_cons_self m s)
        simp [hym]
    · by_cases hm : m ∈ s
      · have hmxs : m ∈ x :: s := List.mem_cons_of_mem _ hm
        rw [filterDupAux, if_pos hmxs, filterDupAux, if_pos hm, ih]
      · have hmxs : m ∉ x :: s := by
          simp [List.mem_cons, hmx, hm]
        rw [filterDupAux, if_neg hmxs, filterDupAux, if_neg hm,
          List.filter_cons, if_pos (by simp [hmx])]
        refine congrArg (m :: ·) ?_
        rw [ih (x :: s) m, ih s x, ih s m]
        rw [List.filter_filter, List.filter_filter]
        refine List.filter_congr ?_
        intro y _
        exact Bool.and_comm _ _

/-- The first element of a duplicated-member list is kept and later
occurrences are dropped: `filterDup (m :: l) = m :: (filterDup l minus m)`. -/
theorem filterDup_cons {α : Type} [DecidableEq α] (m : α) (l : List α) :
    filterDup (m :: l) = m :: (filterDup l).filter (fun y => y ≠ m) := by
  rw [filterDup, filterDupAux, if_neg (List.not_mem_nil m)]
  rw [show ([m] : List α) = m :: ([] : List α) from rfl, filterDupAux_cons_seen]
  rfl

/-- The deduplicated list is ordered by first occurrence in the input: any
two of its elements appear in the order of their first occurrences. -/
theorem pairwise_indexOf_filterDup {α : Type} [DecidableEq α] :
    ∀ (l : List α),
      (filterDup l).Pairwise (fun a b => l.indexOf a < l.indexOf b) := by
  intro l
  induction l with
  | nil => simp [filterDup, filterDupAux]
  | cons m rest ih =>
    rw [filterDup_cons]
    refine List.pairwise_cons.mpr ⟨?_, ?_⟩
    · intro b hb
      have hbm : b ≠ m := by
        have := List.of_mem_filter hb
        simpa using this
      rw [List.indexOf_cons_self]
      rw [List.indexOf_cons_ne _ hbm.symm]
      exact Nat.succ_pos _
    · have hfil := List.Pairwise.filter (fun y => decide (y ≠ m)) ih
      refine hfil.imp_of_mem ?_
      intro a b ha hb hab
      have ham : a ≠ m := by simpa using List.of_mem_filter ha
      have hbm : b ≠ m := by simpa using List.of_mem_filter hb
      rw [List.indexOf_cons_ne _ ham.symm, List.indexOf_cons_ne _ hbm.symm]
      exact Nat.succ_lt_succ hab

/-! ### The set engine (`RedisSets` of `src/redis_sets.cc`)

Each operation is the image of its C++ body on the pure store.  Record locks
and scoped snapshots (serialisation devices) have no image; statistics
updates (`UpdateSpecificKeyStatistics`) feed a compaction heuristic outside
the store and are not modelled.  Environment inputs of the source (random
engine draws, wall-clock duration) are explicit parameters. -/

namespace RedisSets

open Blackwidow

/-- `RedisSets::SAdd`: deduplicate the members, then create, revive or
extend the set; returns (status, affected count, store). -/
def SAdd (st : SetsStore) (now : Int) (key : String)
    (members : List String) : Status × Int × SetsStore :=
  let filtered := filterDup members
  match st.meta key with
  | some m =>
    if isStale m now || decide (m.count = 0) then
      -- dead incarnation: InitialMetaValue bumps the version, then the
      -- count is set to the number of distinct members
      let version := m.version + 1
      let meta2 : SetsMeta := ⟨(filtered.length : Int), version, 0⟩
      (Status.ok, (filtered.length : Int),
        putDataList (putMeta st key meta2) key version filtered)
    else
      -- alive: probe each distinct member, write only the missing ones
      let version := m.version
      let newMembers := filtered.filter
        (fun mem => !(dataContains st key version mem))
      let cnt := (newMembers.length : Int)
      if cnt = 0 then (Status.ok, 0, st)
      else
        let meta2 := { m with count := m.count + cnt }
        (Status.ok, cnt,
          putDataList (putMeta st key meta2) key version newMembers)
  | none =>
    let version := freshVersion
    let meta2 : SetsMeta := ⟨(filtered.length : Int), version, 0⟩
    (Status.ok, (filtered.length : Int),
      putDataList (putMeta st key meta2) key version filtered)

/-- `RedisSets::SCard`: (status, cardinality). -/
def SCard (st : SetsStore) (now : Int) (key : String) : Status × Int :=
  match st.meta key with
  | some m =>
    if isStale m now then (Status.notFound "Stale", 0)
    else if m.count = 0 then (Status.notFound "Deleted", 0)
    else (Status.ok, m.count)
  | none => (Status.notFound "", 0)

/-- `RedisSets::SIsmember`: (status, 1 or 0). -/
def SIsmember (st : SetsStore) (now : Int) (key member : String) :
    Status × Int :=
  match st.meta key with
  | some m =>
    if isStale m now then (Status.notFound "Stale", 0)
    else if m.count = 0 then (Status.notFound "", 0)
    else if dataContains st key m.version member then (Status.ok, 1)
    else (Status.notFound "", 0)
  | none => (Status.notFound "", 0)

/-- `RedisSets::SMembers`: (status, members of the current version, in data
row order). -/
def SMembers (st : SetsStore) (now : Int) (key : String) :
    Status × List String :=
  match st.meta key with
  | some m =>
    if isStale m now then (Status.notFound "Stale", [])
    else if m.count = 0 then (Status.notFound "", [])
    else (Status.ok, dataRowsOf st key m.version)
  | none => (Status.notFound "", [])

/-- `RedisSets::SRem`: probe each supplied member against the store (the
write batch is invisible to the probes), delete the present ones and
decrement the count by the number of probes that hit. -/
def SRem (st : SetsStore) (now : Int) (key : String)
    (members : List String) : Status × Int × SetsStore :=
  match st.meta key with
  | some m =>
    if isStale m now then (Status.notFound "stale", 0, st)
    else if m.count = 0 then (Status.notFound "", 0, st)
    else
      let present := members.filter
        (fun mem => dataContains st key m.version mem)
      let cnt := (present.length : Int)
      let st2 := present.foldl
        (fun s mem => eraseData s key m.version mem)
        (putMeta st key { m with count := m.count - cnt })
      (Status.ok, cnt, st2)
  | none => (Status.notFound "", 0, st)

/-- `RedisSets::SMove`.  The multi-key record lock is a serialisation
device with no image.  All reads go against the pre-batch store `st` (the
batch only commits at the end); the source and destination mutations build
one final store.  When `source = destination` the function returns `1`
immediately, before any store access. -/
def SMove (st : SetsStore) (now : Int) (source destination member : String) :
    Status × Int × SetsStore :=
  if source = destination then (Status.ok, 1, st)
  else
    match st.meta source with
    | some m =>
      if isStale m now then (Status.notFound "Stale", 0, st)
      else if m.count = 0 then (Status.notFound "", 0, st)
      else if dataContains st source m.version member then
        let stS := eraseData
          (putMeta st source { m with count := m.count - 1 })
          source m.version member
        match st.meta destination with
        | some md =>
          if isStale md now || decide (md.count = 0) then
            let v2 := md.version + 1
            (Status.ok, 1,
              putDataList (putMeta stS destination ⟨1, v2, 0⟩)
                destination v2 [member])
          else if dataContains st destination md.version member then
            (Status.ok, 1, stS)
          else
            (Status.ok, 1,
              putDataList
                (putMeta stS destination
                  { md with count := md.count + 1 })
                destination md.version [member])
        | none =>
          (Status.ok, 1,
            putDataList (putMeta stS destination ⟨1, freshVersion, 0⟩)
              destination freshVersion [member])
      else (Status.notFound "", 0, st)
    | none => (Status.notFound "", 0, st)

/-- `RedisSets::SPop`.  `rand` is the draw of the seeded random engine,
`durationExceeded` whether the wall-clock duration of the operation crossed
`SPOP_COMPACT_THRESHOLD_DURATION`, and `thresholdCount` is
`SPOP_COMPACT_THRESHOLD_COUNT`; `counts` is the per-key SPOP counter cache
(`spop_counts_store_`, a bounded LRU whose eviction is not modelled: an
evicted entry merely restarts its count).  Returns (status, popped member,
need-compact flag, store, counter cache). -/
def SPop (st : SetsStore) (counts : String → Nat) (now : Int) (key : String)
    (rand : Nat) (durationExceeded : Bool) (thresholdCount : Nat) :
    Status × Option String × Bool × SetsStore × (String → Nat) :=
  match st.meta key with
  | some m =>
    if isStale m now then (Status.notFound "Stale", none, false, st, counts)
    else if m.count = 0 then (Status.notFound "", none, false, st, counts)
    else
      let size := m.count.toNat
      let target := rand % (if size < 50 then size else 50)
      let rows := dataRowsOf st key m.version
      let popped :=
        if h : target < rows.length then
          let mem := rows.get ⟨target, h⟩
          (some mem,
            eraseData (putMeta st key { m with count := m.count - 1 })
              key m.version mem)
        else (none, st)
      let newCount := counts key + 1
      let compact := durationExceeded || decide (newCount ≥ thresholdCount)
      let counts2 : String → Nat := fun k =>
        if k = key then (if compact then 0 else newCount) else counts k
      (Status.ok, popped.1, compact, popped.2, counts2)
  | none => (Status.notFound "", none, false, st, counts)

/-- The unique-position sampling loop of `SRandmember` for positive count:
draw from the stream, keep unseen positions, stop at `need` positions or
when the (finite) stream of draws is exhausted. -/
def sampleUniquePos (size need : Nat) : List Nat → List Nat → List Nat
  | [], acc => acc
  | r :: rs, acc =>
    if acc.length ≥ need then acc
    else if (r % size) ∈ acc then sampleUniquePos size need rs acc
    else sampleUniquePos size need rs (acc ++ [r % size])

/-- The sampling loop of `SRandmember` for negative count: duplicates
allowed. -/
def sampleDupPos (size need : Nat) : List Nat → List Nat → List Nat
  | [], acc => acc
  | r :: rs, acc =>
    if acc.length ≥ need then acc
    else sampleDupPos size need rs (acc ++ [r % size])

/-- The collection walk of `SRandmember`: `cur` is the running row index and
`ts` the sorted target positions; a row is emitted once per leading target
equal to `cur`. -/
def collectAtPositions : List String → Nat → List Nat → List String
  | [], _, _ => []
  | _, _, [] => []
  | row :: rest, cur, ts =>
    let hits := ts.takeWhile (fun t => t = cur)
    List.replicate hits.length row
      ++ collectAtPositions rest (cur + 1) (ts.drop hits.length)

/-- `RedisSets::SRandmember`.  `rstream` is the (finite) stream of random
engine draws and `shuffle` the permutation applied by `random_shuffle`
before returning; both are environment inputs of the source. -/
def SRandmember (st : SetsStore) (now : Int) (key : String) (cnt : Int)
    (rstream : List Nat) (shuffle : List String → List String) :
    Status × List String :=
  if cnt = 0 then (Status.ok, [])
  else
    match st.meta key with
    | some m =>
      if isStale m now then (Status.notFound "Stale", [])
      else if m.count = 0 then (Status.notFound "", [])
      else
        let size := m.count.toNat
        let targets :=
          if cnt > 0 then
            let need := if cnt ≤ (size : Int) then cnt.toNat else size
            sampleUniquePos size need rstream []
          else sampleDupPos size (-cnt).toNat rstream []
        let sorted := targets.insertionSort (· ≤ ·)
        let rows := (dataRowsOf st key m.version).take size
        (Status.ok, shuffle (collectAtPositions rows 0 sorted))
    | none => (Status.notFound "", [])

/-- The phase-1 loop of `RedisSets::SInter` over `keys[1..]`: collect
`(key, version)` for each input; `none` as soon as one is absent, stale or
empty (the short-circuit to an empty result). -/
def collectLiveTail (st : SetsStore) (now : Int) :
    List String → Option (List (String × Nat))
  | [] => some []
  | k :: rest =>
    match st.meta k with
    | some m =>
      if isStale m now || decide (m.count = 0) then none
      else
        match collectLiveTail st now rest with
        | some vs => some ((k, m.version) :: vs)
        | none => none
    | none => none

/-- `RedisSets::SInter`: empty key list is `Corruption`; any dead or absent
input short-circuits to an empty result; otherwise the members of the first
key present in every other input. -/
def SInter (st : SetsStore) (now : Int) (keys : List String) :
    Status × List String :=
  match keys with
  | [] => (Status.corruption "SInter invalid parameter, no keys", [])
  | k0 :: rest =>
    match collectLiveTail st now rest with
    | none => (Status.ok, [])
    | some validSets =>
      match st.meta k0 with
      | some m =>
        if isStale m now || decide (m.count = 0) then (Status.ok, [])
        else
          let rows := dataRowsOf st k0 m.version
          (Status.ok, rows.filter (fun mem =>
            validSets.all (fun kv => dataContains st kv.1 kv.2 mem)))
      | none => (Status.ok, [])

/-- `RedisSets::Expire`: positive ttl sets an absolute expiry
(`SetRelativeTimestamp`, modelled from the spec as `timestamp := now + ttl`);
otherwise the key is logically deleted by `InitialMetaValue`. -/
def Expire (st : SetsStore) (now : Int) (key : String) (ttl : Int) :
    Status × SetsStore :=
  match st.meta key with
  | some m =>
    if isStale m now then (Status.notFound "Stale", st)
    else if m.count = 0 then (Status.notFound "", st)
    else if ttl > 0 then
      (Status.ok, putMeta st key { m with timestamp := now + ttl })
    else (Status.ok, putMeta st key (initialMetaValue m))
  | none => (Status.notFound "", st)

/-- `RedisSets::Expireat`: positive timestamp is stored verbatim; otherwise
the key is logically deleted. -/
def Expireat (st : SetsStore) (now : Int) (key : String) (ts : Int) :
    Status × SetsStore :=
  match st.meta key with
  | some m =>
    if isStale m now then (Status.notFound "Stale", st)
    else if m.count = 0 then (Status.notFound "", st)
    else if ts > 0 then
      (Status.ok, putMeta st key { m with timestamp := ts })
    else (Status.ok, putMeta st key (initialMetaValue m))
  | none => (Status.notFound "", st)

/-- `RedisSets::Del`: logical delete by `InitialMetaValue` (version bump,
count zero). -/
def Del (st : SetsStore) (now : Int) (key : String) : Status × SetsStore :=
  match st.meta key with
  | some m =>
    if isStale m now then (Status.notFound "Stale", st)
    else if m.count = 0 then (Status.notFound "", st)
    else (Status.ok, putMeta st key (initialMetaValue m))
  | none => (Status.notFound "", st)

/-- `RedisSets::Persist`: clears the expiry; `NotFound` with reason when the
key carries none. -/
def Persist (st : SetsStore) (now : Int) (key : String) :
    Status × SetsStore :=
  match st.meta key with
  | some m =>
    if isStale m now then (Status.notFound "Stale", st)
    else if m.count = 0 then (Status.notFound "", st)
    else if m.timestamp = 0 then
      (Status.notFound "Not have an associated timeout", st)
    else (Status.ok, putMeta st key { m with timestamp := 0 })
  | none => (Status.notFound "", st)

/-- `RedisSets::TTL`: (status, remaining seconds, `-1` when no expiry, `-2`
when absent or dead). -/
def TTL (st : SetsStore) (now : Int) (key : String) : Status × Int :=
  match st.meta key with
  | some m =>
    if isStale m now then (Status.notFound "Stale", -2)
    else if m.count = 0 then (Status.notFound "", -2)
    else if m.timestamp = 0 then (Status.ok, -1)
    else if m.timestamp - now ≥ 0 then (Status.ok, m.timestamp - now)
    else (Status.ok, -2)
  | none => (Status.notFound "", -2)

end RedisSets

/-! ### The cross-type dispatcher (`BlackWidow` of `src/blackwidow.cc`)

The five per-type engines live in separate databases; the dispatcher only
consumes their statuses, so each engine call is modelled as an input status.
A dispatcher run is a sequence of blocks; each block calls one engine and,
on a non-`NotFound` error, records the status in the per-type map under a
(hard-coded) map key.  The block lists below transcribe the source: for
`Expireat` and `Persist` the final block calls the zsets engine but records
under `kLists` (`blackwidow.cc`, the repeated `kLists` assignment). -/

namespace BlackWidow

/-- Accumulator of a dispatcher run: running success count, per-type status
map, corruption flag, and the trace of engines invoked so far. -/
structure DispatchAcc where
  cnt : Int
  statusMap : DataType → Option Status
  corrupt : Bool
  trace : List DataType

/-- The empty accumulator. -/
def accInit : DispatchAcc := ⟨0, fun _ => none, false, []⟩

/-- One dispatcher block: call the engine of `blk.1`; on success increment
the count; on a non-`NotFound` error set the corruption flag and record the
status under the map key `blk.2`. -/
def dispatchStep (es : DataType → Status) (acc : DispatchAcc)
    (blk : DataType × DataType) : DispatchAcc :=
  let s := es blk.1
  let acc1 :=
    if s.isOk then { acc with cnt := acc.cnt + 1 }
    else if s.isNotFound then acc
    else { acc with
      statusMap := fun d => if d = blk.2 then some s else acc.statusMap d,
      corrupt := true }
  { acc1 with trace := acc.trace ++ [blk.1] }

/-- Finish a run: the aggregate integer is `-1` when the corruption flag is
set, else the success count. -/
def finish (acc : DispatchAcc) :
    Int × (DataType → Option Status) × List DataType :=
  (if acc.corrupt then -1 else acc.cnt, acc.statusMap, acc.trace)

/-- Blocks of `BlackWidow::Expire`: strings, hashes, sets, lists, zsets,
each recording under its own type. -/
def expireBlocks : List (DataType × DataType) :=
  [(DataType.kStrings, DataType.kStrings), (DataType.kHashes, DataType.kHashes),
   (DataType.kSets, DataType.kSets), (DataType.kLists, DataType.kLists),
   (DataType.kZSets, DataType.kZSets)]

/-- Blocks of `BlackWidow::Expireat`: same engine order, but the zsets
block records its status under `kLists` (the source assigns
`(*type_status)[DataType::kLists]` in the zsets block). -/
def expireatBlocks : List (DataType × DataType) :=
  [(DataType.kStrings, DataType.kStrings), (DataType.kHashes, DataType.kHashes),
   (DataType.kSets, DataType.kSets), (DataType.kLists, DataType.kLists),
   (DataType.kZSets, DataType.kLists)]

/-- Blocks of `BlackWidow::Persist`: identical to `Expireat`, including the
`kLists` recording in the zsets block. -/
def persistBlocks : List (DataType × DataType) :=
  [(DataType.kStrings, DataType.kStrings), (DataType.kHashes, DataType.kHashes),
   (DataType.kSets, DataType.kSets), (DataType.kLists, DataType.kLists),
   (DataType.kZSets, DataType.kLists)]

/-- Blocks of the per-key body of `BlackWidow::Del`: strings, hashes, sets,
lists, zsets, each recording under its own type. -/
def delBlocks : List (DataType × DataType) :=
  [(DataType.kStrings, DataType.kStrings), (DataType.kHashes, DataType.kHashes),
   (DataType.kSets, DataType.kSets), (DataType.kLists, DataType.kLists),
   (DataType.kZSets, DataType.kZSets)]

/-- `BlackWidow::Expire(key, ttl, type_status)`: aggregate integer,
per-type status map, engine invocation trace. -/
def Expire (es : DataType → Status) :
    Int × (DataType → Option Status) × List DataType :=
  finish (expireBlocks.foldl (dispatchStep es) accInit)

/-- `BlackWidow::Expireat`. -/
def Expireat (es : DataType → Status) :
    Int × (DataType → Option Status) × List DataType :=
  finish (expireatBlocks.foldl (dispatchStep es) accInit)

/-- `BlackWidow::Persist`. -/
def Persist (es : DataType → Status) :
    Int × (DataType → Option Status) × List DataType :=
  finish (persistBlocks.foldl (dispatchStep es) accInit)

/-- `BlackWidow::Del(keys, type_status)`: for each key the five engines are
invoked in block order; `es key dt` is the status of engine `dt` on `key`. -/
def Del (es : String → DataType → Status) (keys : List String) :
    Int × (DataType → Option Status) × List DataType :=
  finish (keys.foldl
    (fun acc k => delBlocks.foldl (dispatchStep (es k)) acc) accInit)

/-! ### HyperLogLog commands (`PfAdd` / `PfCount` / `PfMerge`)

The `HyperLogLog` register algebra lives outside `src/`; it is abstracted
as an input: `add regs v` is `log.Add` on serialized registers, `merge a b`
is `Merge`, `estimate` the (already int-cast) estimator.  The strings
engine is a point map from keys to values.  `kMaxKeys` is the configured
key-count maximum. -/

/-- The abstracted HyperLogLog register operations. -/
structure HLLApi where
  add : String → String → String
  merge : String → String → String
  estimate : String → Int

/-- `BlackWidow::PfAdd`: guard on `values.size() >= kMaxKeys`, fold the
values into the registers, set the update flag iff the estimate changed or
a missing key was "created" with zero values, and write back.  Returns
(status, update flag, strings store). -/
def PfAdd (api : HLLApi) (kMaxKeys : Nat) (strs : String → Option String)
    (key : String) (values : List String) :
    Status × Bool × (String → Option String) :=
  if values.length ≥ kMaxKeys then
    (Status.invalidArgument "Invalid the number of key", false, strs)
  else
    let getRes := strs key
    let registers := getRes.getD ""
    let previous := api.estimate registers
    -- `result` starts as "" and is the serialized registers after each
    -- `log.Add`; it stays "" when the loop body never runs
    let result :=
      match values with
      | [] => ""
      | _ => values.foldl api.add registers
    let nowE := api.estimate result
    let update := decide (previous ≠ nowE)
      || (decide (getRes = none) && decide (values.length = 0))
    (Status.ok, update, fun k => if k = key then some result else strs k)

/-- `BlackWidow::PfCount`: guard on `keys.size() >= kMaxKeys || keys.size()
<= 0`; merge the registers of all present keys into the first and
estimate. -/
def PfCount (api : HLLApi) (kMaxKeys : Nat) (strs : String → Option String)
    (keys : List String) : Status × Int :=
  match keys with
  | [] => (Status.invalidArgument "Invalid the number of key", 0)
  | k0 :: rest =>
    if rest.length + 1 ≥ kMaxKeys then
      (Status.invalidArgument "Invalid the number of key", 0)
    else
      let firstRegisters := (strs k0).getD ""
      let merged := rest.foldl
        (fun acc k =>
          match strs k with
          | some v => api.merge acc v
          | none => acc)
        firstRegisters
      (Status.ok, api.estimate merged)

/-- `BlackWidow::PfMerge`: same guard; merge all present keys into the
first key's registers and write the union back to the first key. -/
def PfMerge (api : HLLApi) (kMaxKeys : Nat) (strs : String → Option String)
    (keys : List String) : Status × (String → Option String) :=
  match keys with
  | [] => (Status.invalidArgument "Invalid the number of key", strs)
  | k0 :: rest =>
    if rest.length + 1 ≥ kMaxKeys then
      (Status.invalidArgument "Invalid the number of key", strs)
    else
      let firstRegisters := (strs k0).getD ""
      -- `result` starts as the first key's registers (the value written
      -- when every other key is absent)
      let result := rest.foldl
        (fun acc k =>
          match strs k with
          | some v => api.merge acc v
          | none => acc)
        firstRegisters
      (Status.ok, fun k => if k = k0 then some result else strs k)

/-- `BlackWidow::AddBGTask`: a `kAll` task first clears the pending queue,
then the task is pushed. -/
def AddBGTask (queue : List BGTask) (t : BGTask) : List BGTask :=
  let q1 := if t.type = DataType.kAll then [] else queue
  q1 ++ [t]

end BlackWidow

/-! ## Claims -/

/-- C7: for every store, time, key and member, `SMove(k, k, member)` returns
success with affected count `1` and leaves the store untouched (the early
return fires before any store access), whether or not `k` or the member
exists. -/
theorem smove_same_source_destination (st : SetsStore) (now : Int)
    (key member : String) :
    RedisSets.SMove st now key key member = (Status.ok, 1, st) := by
  simp [RedisSets.SMove]

/-- C9: enqueueing a task of type `kAll` drops every pending task: the
queue afterwards holds exactly that task. -/
theorem addbgtask_kall_clears_queue (queue : List BGTask) (t : BGTask)
    (h : t.type = DataType.kAll) :
    BlackWidow.AddBGTask queue t = [t] := by
  simp [BlackWidow.AddBGTask, h]

/-- C9 witness: a queue with two pending per-type tasks collapses to the
single `kAll` task. -/
theorem addbgtask_kall_clears_queue_witness :
    BlackWidow.AddBGTask
      [⟨DataType.kSets, Operation.kCompactKey, "a"⟩,
       ⟨DataType.kHashes, Operation.kCleanAll, ""⟩]
      ⟨DataType.kAll, Operation.kCleanAll, ""⟩
      = [⟨DataType.kAll, Operation.kCleanAll, ""⟩] :=
  addbgtask_kall_clears_queue
    [⟨DataType.kSets, Operation.kCompactKey, "a"⟩,
     ⟨DataType.kHashes, Operation.kCleanAll, ""⟩]
    ⟨DataType.kAll, Operation.kCleanAll, ""⟩ rfl

/-- C5 counterexample: the `Expire` dispatcher does not invoke the engines
in the order strings, hashes, lists, zsets, sets claimed by the spec (its
trace calls sets third, not last). -/
theorem expire_trace_not_spec_order :
    (BlackWidow.Expire (fun _ => Status.notFound "")).2.2 ≠
      [DataType.kStrings, DataType.kHashes, DataType.kLists,
       DataType.kZSets, DataType.kSets] := by
  decide

/-- The per-key block fold of `Del` appends the five engine types to the
trace. -/
theorem delBlocks_trace (f : DataType → Status) (acc : BlackWidow.DispatchAcc) :
    (BlackWidow.delBlocks.foldl (BlackWidow.dispatchStep f) acc).trace =
      acc.trace ++ [DataType.kStrings, DataType.kHashes, DataType.kSets,
        DataType.kLists, DataType.kZSets] := by
  simp [BlackWidow.delBlocks, BlackWidow.dispatchStep]

/-- C5 (amended): the cross-type dispatcher operations `Expire`,
`Expireat`, `Persist` and `Del` invoke the five type engines in the order
strings, hashes, sets, lists, zsets (for `Del`, once per key in that
order). -/
theorem dispatcher_engine_order (es : DataType → Status)
    (esk : String → DataType → Status) (keys : List String) :
    (BlackWidow.Expire es).2.2 =
      [DataType.kStrings, DataType.kHashes, DataType.kSets,
       DataType.kLists, DataType.kZSets] ∧
    (BlackWidow.Expireat es).2.2 =
      [DataType.kStrings, DataType.kHashes, DataType.kSets,
       DataType.kLists, DataType.kZSets] ∧
    (BlackWidow.Persist es).2.2 =
      [DataType.kStrings, DataType.kHashes, DataType.kSets,
       DataType.kLists, DataType.kZSets] ∧
    (BlackWidow.Del esk keys).2.2 =
      keys.flatMap (fun _ =>
        [DataType.kStrings, DataType.kHashes, DataType.kSets,
         DataType.kLists, DataType.kZSets]) := by
  refine ⟨?_, ?_, ?_, ?_⟩
  · simp [BlackWidow.Expire, BlackWidow.finish, BlackWidow.expireBlocks,
      BlackWidow.dispatchStep, BlackWidow.accInit]
  · simp [BlackWidow.Expireat, BlackWidow.finish, BlackWidow.expireatBlocks,
      BlackWidow.dispatchStep, BlackWidow.accInit]
  · simp [BlackWidow.Persist, BlackWidow.finish, BlackWidow.persistBlocks,
      BlackWidow.dispatchStep, BlackWidow.accInit]
  · show (BlackWidow.finish _).2.2 = _
    rw [BlackWidow.finish]
    suffices h : ∀ acc : BlackWidow.DispatchAcc,
        (keys.foldl
          (fun acc k =>
            BlackWidow.delBlocks.foldl (BlackWidow.dispatchStep (esk k)) acc)
          acc).trace =
          acc.trace ++ keys.flatMap (fun _ =>
            [DataType.kStrings, DataType.kHashes, DataType.kSets,
             DataType.kLists, DataType.kZSets]) by
      simpa [BlackWidow.accInit] using h BlackWidow.accInit
    induction keys with
    | nil => intro acc; simp
    | cons k ks ih =>
      intro acc
      simp only [List.foldl_cons, List.flatMap_cons, ih, delBlocks_trace,
        List.append_assoc]

/-- The engine-status function exhibiting C3's divergence: every engine
reports `NotFound` except zsets, which fails with a corruption error. -/
def zsetsFailEngines : DataType → Status := fun dt =>
  if dt = DataType.kZSets then Status.corruption "zsets engine error"
  else Status.notFound ""

/-- C3 (code bug): when the zsets engine is the one failing, `Expireat` and
`Persist` return the aggregate `-1` but record the zsets error in the
per-type map under `kLists`, leaving no entry under `kZSets` — the error is
not recorded under the data type of the engine that produced it. -/
theorem expireat_persist_misrecord_zsets_error :
    (BlackWidow.Expireat zsetsFailEngines).1 = -1 ∧
    (BlackWidow.Expireat zsetsFailEngines).2.1 DataType.kZSets = none ∧
    (BlackWidow.Expireat zsetsFailEngines).2.1 DataType.kLists =
      some (Status.corruption "zsets engine error") ∧
    (BlackWidow.Persist zsetsFailEngines).1 = -1 ∧
    (BlackWidow.Persist zsetsFailEngines).2.1 DataType.kZSets = none ∧
    (BlackWidow.Persist zsetsFailEngines).2.1 DataType.kLists =
      some (Status.corruption "zsets engine error") := by
  refine ⟨rfl, rfl, rfl, rfl, rfl, rfl⟩

/-- C6 counterexample: with `kMaxKeys = 2`, `PfCount` on exactly two keys —
a count that does not exceed the maximum — already fails with
`InvalidArgument` (the guard is `>=`, not `>`). -/
theorem pfcount_rejects_exactly_kmaxkeys :
    (BlackWidow.PfCount ⟨fun r _ => r, fun a _ => a, fun _ => 0⟩ 2
        (fun _ => none) ["a", "b"]).1 =
      Status.invalidArgument "Invalid the number of key" ∧
    ¬ ((["a", "b"] : List String).length > 2) := by
  exact ⟨rfl, by decide⟩

/-- C6 (amended): `PfAdd` fails with `InvalidArgument` exactly when the
number of values reaches or exceeds `kMaxKeys`; `PfCount` and `PfMerge`
fail with `InvalidArgument` exactly when the number of keys reaches or
exceeds `kMaxKeys` or is zero; otherwise none of them fails for a
key-count reason. -/
theorem pf_key_count_guard (api : BlackWidow.HLLApi) (kMaxKeys : Nat)
    (strs : String → Option String) (key : String)
    (values keys : List String) :
    ((BlackWidow.PfAdd api kMaxKeys strs key values).1 =
        Status.invalidArgument "Invalid the number of key" ↔
      values.length ≥ kMaxKeys) ∧
    ((BlackWidow.PfCount api kMaxKeys strs keys).1 =
        Status.invalidArgument "Invalid the number of key" ↔
      (keys.length ≥ kMaxKeys ∨ keys.length = 0)) ∧
    ((BlackWidow.PfMerge api kMaxKeys strs keys).1 =
        Status.invalidArgument "Invalid the number of key" ↔
      (keys.length ≥ kMaxKeys ∨ keys.length = 0)) := by
  refine ⟨?_, ?_, ?_⟩
  · rw [BlackWidow.PfAdd]
    by_cases h : values.length ≥ kMaxKeys
    · simp [h]
    · simp [h]
  · match keys with
    | [] => simp [BlackWidow.PfCount]
    | k0 :: rest =>
      by_cases h : rest.length + 1 ≥ kMaxKeys
      · simp [BlackWidow.PfCount, h]
      · have hne : ¬((k0 :: rest).length ≥ kMaxKeys ∨
            (k0 :: rest).length = 0) := by
          simp only [List.length_cons]; omega
        simp [BlackWidow.PfCount, h, hne]
  · match keys with
    | [] => simp [BlackWidow.PfMerge]
    | k0 :: rest =>
      by_cases h : rest.length + 1 ≥ kMaxKeys
      · simp [BlackWidow.PfMerge, h]
      · have hne : ¬((k0 :: rest).length ≥ kMaxKeys ∨
            (k0 :: rest).length = 0) := by
          simp only [List.length_cons]; omega
        simp [BlackWidow.PfMerge, h, hne]

/-- C1: on a key with no meta row, `SAdd` deduplicates the members
preserving first-seen order, creates a meta row whose count is the number
of distinct members under the fresh version, appends one data row per
distinct member under that version, and returns the number of distinct
members.  The last four conjuncts pin `filterDup` as first-seen-order
deduplication: no duplicates, the same membership, a sublist of the input,
and ordered by first occurrence. -/
theorem sadd_creates_set_for_absent_key (st : SetsStore) (now : Int)
    (key : String) (members : List String) (h : st.meta key = none) :
    (RedisSets.SAdd st now key members).1 = Status.ok ∧
    (RedisSets.SAdd st now key members).2.1 =
      ((filterDup members).length : Int) ∧
    (RedisSets.SAdd st now key members).2.2.meta key =
      some ⟨((filterDup members).length : Int), freshVersion, 0⟩ ∧
    (RedisSets.SAdd st now key members).2.2.data =
      st.data ++ (filterDup members).map (fun mem => (key, freshVersion, mem)) ∧
    (filterDup members).Nodup ∧
    (∀ x, x ∈ filterDup members ↔ x ∈ members) ∧
    (filterDup members).Sublist members ∧
    (filterDup members).Pairwise
      (fun a b => members.indexOf a < members.indexOf b) := by
  refine ⟨?_, ?_, ?_, ?_, nodup_filterDup members,
    fun x => mem_filterDup x members, sublist_filterDup members,
    pairwise_indexOf_filterDup members⟩ <;>
  simp [RedisSets.SAdd, h, putDataList, putMeta]

/-- The store of the C1 witness: entirely empty. -/
def saddW : SetsStore := ⟨fun _ => none, []⟩

/-- C1 witness: on the empty store, `SAdd "k" ["x","y","x"]` returns 2 and
creates the meta row `(2, freshVersion)` with data rows for `x` and `y`. -/
theorem sadd_creates_set_for_absent_key_witness :
    saddW.meta "k" = none ∧
    ((RedisSets.SAdd saddW 0 "k" ["x", "y", "x"]).1 = Status.ok ∧
     (RedisSets.SAdd saddW 0 "k" ["x", "y", "x"]).2.1 = 2 ∧
     (RedisSets.SAdd saddW 0 "k" ["x", "y", "x"]).2.2.meta "k" =
       some ⟨2, freshVersion, 0⟩ ∧
     (RedisSets.SAdd saddW 0 "k" ["x", "y", "x"]).2.2.data =
       [("k", freshVersion, "x"), ("k", freshVersion, "y")]) :=
  ⟨rfl, by
    have T := sadd_creates_set_for_absent_key saddW 0 "k" ["x", "y", "x"] rfl
    refine ⟨T.1, ?_, ?_, ?_⟩
    · rw [T.2.1]; rfl
    · rw [T.2.2.1]; rfl
    · rw [T.2.2.2.1]; rfl⟩

/-- C10: when the key is alive and every supplied member is already present
under the current version, `SAdd` returns success with affected count `0`
and the store — meta row and data rows — is exactly unchanged. -/
theorem sadd_noop_when_all_members_present (st : SetsStore) (now : Int)
    (key : String) (members : List String) (m : SetsMeta)
    (hm : st.meta key = some m) (hstale : isStale m now = false)
    (hcount : m.count ≠ 0)
    (hall : ∀ mem ∈ members, dataContains st key m.version mem = true) :
    RedisSets.SAdd st now key members = (Status.ok, 0, st) := by
  have hnew : (filterDup members).filter
      (fun mem => !(dataContains st key m.version mem)) = [] := by
    rw [List.filter_eq_nil_iff]
    intro a ha
    have hc := hall a ((mem_filterDup a members).mp ha)
    simp [hc]
  simp [RedisSets.SAdd, hm, hstale, hcount, hnew]

/-- The store of the C10 witness: `"k"` alive at version 4 with member
`"x"`. -/
def saddPW : SetsStore :=
  ⟨fun k => if k = "k" then some ⟨1, 4, 0⟩ else none, [("k", 4, "x")]⟩

/-- C10 witness: `SAdd "k" ["x","x"]` on a set already holding `"x"`
returns 0 and the store is returned untouched. -/
theorem sadd_noop_when_all_members_present_witness :
    RedisSets.SAdd saddPW 0 "k" ["x", "x"] = (Status.ok, 0, saddPW) :=
  sadd_noop_when_all_members_present saddPW 0 "k" ["x", "x"] ⟨1, 4, 0⟩
    rfl rfl (by decide) (by decide)

/-- Phase 1 of `SInter` returns `none` as soon as one of the tail keys is
absent, stale, or empty. -/
theorem collectLiveTail_none_of_dead (st : SetsStore) (now : Int) :
    ∀ keys : List String, (∃ k ∈ keys, isDeadOrAbsent st now k = true) →
      RedisSets.collectLiveTail st now keys = none := by
  intro keys
  induction keys with
  | nil => rintro ⟨k, hk, _⟩; exact absurd hk (List.not_mem_nil k)
  | cons k0 rest ih =>
    rintro ⟨k, hk, hdead⟩
    rcases List.mem_cons.mp hk with rfl | hk2
    · cases hmeta : st.meta k with
      | none => simp [RedisSets.collectLiveTail, hmeta]
      | some m =>
        have hcond : (isStale m now || decide (m.count = 0)) = true := by
          simpa [isDeadOrAbsent, hmeta] using hdead
        simp [RedisSets.collectLiveTail, hmeta, hcond]
    · have hrest := ih ⟨k, hk2, hdead⟩
      cases hmeta : st.meta k0 with
      | none => simp [RedisSets.collectLiveTail, hmeta]
      | some m => simp [RedisSets.collectLiveTail, hmeta, hrest]

/-- C2: for every non-empty key list, if any input key is absent, stale or
has count zero, `SInter` returns success with an empty member list. -/
theorem sinter_dead_input_gives_empty (st : SetsStore) (now : Int)
    (keys : List String) (hne : keys ≠ [])
    (hdead : ∃ k ∈ keys, isDeadOrAbsent st now k = true) :
    RedisSets.SInter st now keys = (Status.ok, []) := by
  match keys, hne with
  | k0 :: rest, _ =>
    rcases hdead with ⟨k, hk, hd⟩
    rcases List.mem_cons.mp hk with rfl | hk2
    · cases hc : RedisSets.collectLiveTail st now rest with
      | none => simp [RedisSets.SInter, hc]
      | some vs =>
        cases hmeta : st.meta k with
        | none => simp [RedisSets.SInter, hc, hmeta]
        | some m =>
          have hcond : (isStale m now || decide (m.count = 0)) = true := by
            simpa [isDeadOrAbsent, hmeta] using hd
          simp [RedisSets.SInter, hc, hmeta, hcond]
    · have hrest := collectLiveTail_none_of_dead st now rest ⟨k, hk2, hd⟩
      simp [RedisSets.SInter, hrest]

/-- The store of the C2 witness: `"a"` alive with `{x, y}`, `"b"` deleted
(count zero), matching the spec scenario `SAdd a; SAdd b; Del b`. -/
def sinterW : SetsStore :=
  ⟨fun k =>
    if k = "a" then some ⟨2, 1, 0⟩
    else if k = "b" then some ⟨0, 2, 0⟩
    else none,
   [("a", 1, "x"), ("a", 1, "y")]⟩

/-- C2 witness: `SInter ["a","b"]` with `"b"` dead yields success and no
members. -/
theorem sinter_dead_input_gives_empty_witness :
    RedisSets.SInter sinterW 100 ["a", "b"] = (Status.ok, []) :=
  sinter_dead_input_gives_empty sinterW 100 ["a", "b"] (by decide)
    ⟨"b", by decide, by decide⟩

/-- C8: `TTL` reports the seconds remaining before expiry for an alive key
with an expiry (a positive value), `-1` for an alive key without expiry,
and `-2` for a stale key, an empty key, or an absent key. -/
theorem ttl_semantics (st : SetsStore) (now : Int) (key : String) :
    (∀ m : SetsMeta, st.meta key = some m → isStale m now = false →
      m.count ≠ 0 → m.timestamp ≠ 0 →
      RedisSets.TTL st now key = (Status.ok, m.timestamp - now) ∧
        m.timestamp - now > 0) ∧
    (∀ m : SetsMeta, st.meta key = some m → isStale m now = false →
      m.count ≠ 0 → m.timestamp = 0 →
      RedisSets.TTL st now key = (Status.ok, -1)) ∧
    (∀ m : SetsMeta, st.meta key = some m → isStale m now = true →
      RedisSets.TTL st now key = (Status.notFound "Stale", -2)) ∧
    (∀ m : SetsMeta, st.meta key = some m → isStale m now = false →
      m.count = 0 → RedisSets.TTL st now key = (Status.notFound "", -2)) ∧
    (st.meta key = none →
      RedisSets.TTL st now key = (Status.notFound "", -2)) := by
  refine ⟨?_, ?_, ?_, ?_, ?_⟩
  · intro m hm hstale hcount hts
    have hnots := hstale
    simp only [isStale, decide_eq_false_iff_not] at hnots
    have hgt : m.timestamp - now > 0 := by omega
    have hge : m.timestamp - now ≥ 0 := le_of_lt hgt
    exact ⟨by simp [RedisSets.TTL, hm, hstale, hcount, hts, hge], hgt⟩
  · intro m hm hstale hcount hts
    simp [RedisSets.TTL, hm, hstale, hcount, hts]
  · intro m hm hstale
    simp [RedisSets.TTL, hm, hstale]
  · intro m hm hstale hcount
    simp [RedisSets.TTL, hm, hstale, hcount]
  · intro h
    simp [RedisSets.TTL, h]

/-- The store of the C8 witness: `"a"` alive expiring at 150, `"b"` alive
without expiry, `"c"` stale (expired at 50), `"d"` empty; `"e"` absent.
The current time is 100. -/
def ttlW : SetsStore :=
  ⟨fun k =>
    if k = "a" then some ⟨2, 1, 150⟩
    else if k = "b" then some ⟨2, 1, 0⟩
    else if k = "c" then some ⟨2, 1, 50⟩
    else if k = "d" then some ⟨0, 1, 0⟩
    else none, []⟩

/-- C8 witness: all five TTL cases at time 100. -/
theorem ttl_semantics_witness :
    RedisSets.TTL ttlW 100 "a" = (Status.ok, 50) ∧
    RedisSets.TTL ttlW 100 "b" = (Status.ok, -1) ∧
    RedisSets.TTL ttlW 100 "c" = (Status.notFound "Stale", -2) ∧
    RedisSets.TTL ttlW 100 "d" = (Status.notFound "", -2) ∧
    RedisSets.TTL ttlW 100 "e" = (Status.notFound "", -2) :=
  ⟨((ttl_semantics ttlW 100 "a").1 ⟨2, 1, 150⟩ rfl rfl (by decide)
      (by decide)).1,
   (ttl_semantics ttlW 100 "b").2.1 ⟨2, 1, 0⟩ rfl rfl (by decide) rfl,
   (ttl_semantics ttlW 100 "c").2.2.1 ⟨2, 1, 50⟩ rfl rfl,
   (ttl_semantics ttlW 100 "d").2.2.2.1 ⟨0, 1, 0⟩ rfl rfl rfl,
   (ttl_semantics ttlW 100 "e").2.2.2.2 rfl⟩

/-- The store of the C4 counterexample and witness: `"k"` stale at time
100 (expired at 50). -/
def staleW : SetsStore :=
  ⟨fun k => if k = "k" then some ⟨1, 3, 50⟩ else none, [("k", 3, "x")]⟩

/-- C4 counterexample: `SRem` on a stale key returns `NotFound("stale")`
with a lowercase reason, not the `NotFound("Stale")` the claim states. -/
theorem srem_stale_reason_is_lowercase :
    staleW.meta "k" = some ⟨1, 3, 50⟩ ∧
    isStale ⟨1, 3, 50⟩ 100 = true ∧
    (RedisSets.SRem staleW 100 "k" ["x"]).1 = Status.notFound "stale" ∧
    (RedisSets.SRem staleW 100 "k" ["x"]).1 ≠ Status.notFound "Stale" :=
  ⟨rfl, rfl, rfl, by decide⟩

/-- C4 (amended): every set-engine operation that finds the key's meta row
stale returns `NotFound` with reason `"Stale"`, except `SRem`, which
returns the reason in lowercase, `"stale"`.  For `SMove` the checked meta
row is the source's and the early same-key return must not fire; for
`SRandmember` the zero-count early return must not fire. -/
theorem sets_stale_ops_return_stale (st : SetsStore) (counts : String → Nat)
    (now : Int) (key dst member : String) (members : List String)
    (cnt ttl ts : Int) (rand thr : Nat) (dur : Bool) (rstream : List Nat)
    (shuffle : List String → List String) (m : SetsMeta)
    (hm : st.meta key = some m) (hs : isStale m now = true) :
    (RedisSets.SCard st now key).1 = Status.notFound "Stale" ∧
    (RedisSets.SIsmember st now key member).1 = Status.notFound "Stale" ∧
    (RedisSets.SMembers st now key).1 = Status.notFound "Stale" ∧
    (key ≠ dst →
      (RedisSets.SMove st now key dst member).1 = Status.notFound "Stale") ∧
    (RedisSets.SPop st counts now key rand dur thr).1 =
      Status.notFound "Stale" ∧
    (cnt ≠ 0 →
      (RedisSets.SRandmember st now key cnt rstream shuffle).1 =
        Status.notFound "Stale") ∧
    (RedisSets.SRem st now key members).1 = Status.notFound "stale" ∧
    (RedisSets.Expire st now key ttl).1 = Status.notFound "Stale" ∧
    (RedisSets.Expireat st now key ts).1 = Status.notFound "Stale" ∧
    (RedisSets.Del st now key).1 = Status.notFound "Stale" ∧
    (RedisSets.TTL st now key).1 = Status.notFound "Stale" ∧
    (RedisSets.Persist st now key).1 = Status.notFound "Stale" := by
  refine ⟨?_, ?_, ?_, ?_, ?_, ?_, ?_, ?_, ?_, ?_, ?_, ?_⟩
  · simp [RedisSets.SCard, hm, hs]
  · simp [RedisSets.SIsmember, hm, hs]
  · simp [RedisSets.SMembers, hm, hs]
  · intro hne; simp [RedisSets.SMove, hne, hm, hs]
  · simp [RedisSets.SPop, hm, hs]
  · intro hcnt; simp [RedisSets.SRandmember, hcnt, hm, hs]
  · simp [RedisSets.SRem, hm, hs]
  · simp [RedisSets.Expire, hm, hs]
  · simp [RedisSets.Expireat, hm, hs]
  · simp [RedisSets.Del, hm, hs]
  · simp [RedisSets.TTL, hm, hs]
  · simp [RedisSets.Persist, hm, hs]

/-- C4 witness: all twelve operations on the stale key `"k"` at time 100. -/
theorem sets_stale_ops_return_stale_witness :
    (RedisSets.SCard staleW 100 "k").1 = Status.notFound "Stale" ∧
    (RedisSets.SIsmember staleW 100 "k" "x").1 = Status.notFound "Stale" ∧
    (RedisSets.SMembers staleW 100 "k").1 = Status.notFound "Stale" ∧
    (RedisSets.SMove staleW 100 "k" "d" "x").1 = Status.notFound "Stale" ∧
    (RedisSets.SPop staleW (fun _ => 0) 100 "k" 5 false 7).1 =
      Status.notFound "Stale" ∧
    (RedisSets.SRandmember staleW 100 "k" 1 [] id).1 =
      Status.notFound "Stale" ∧
    (RedisSets.SRem staleW 100 "k" ["x"]).1 = Status.notFound "stale" ∧
    (RedisSets.Expire staleW 100 "k" 9).1 = Status.notFound "Stale" ∧
    (RedisSets.Expireat staleW 100 "k" 9).1 = Status.notFound "Stale" ∧
    (RedisSets.Del staleW 100 "k").1 = Status.notFound "Stale" ∧
    (RedisSets.TTL staleW 100 "k").1 = Status.notFound "Stale" ∧
    (RedisSets.Persist staleW 100 "k").1 = Status.notFound "Stale" := by
  have T := sets_stale_ops_return_stale staleW (fun _ => 0) 100 "k" "d" "x"
    ["x"] 1 9 9 5 7 false [] id ⟨1, 3, 50⟩ rfl rfl
  exact ⟨T.1, T.2.1, T.2.2.1, T.2.2.2.1 (by decide), T.2.2.2.2.1,
    T.2.2.2.2.2.1 (by decide), T.2.2.2.2.2.2.1, T.2.2.2.2.2.2.2.1,
    T.2.2.2.2.2.2.2.2.1, T.2.2.2.2.2.2.2.2.2.1, T.2.2.2.2.2.2.2.2.2.2.1,
    T.2.2.2.2.2.2.2.2.2.2.2⟩

end Blackwidow
